import Mathlib

/-!
Verification of the FortiGate policy-audit engine (`Policy-Check/PolicyCheck.py`).

The engine consumes a sequence of firewall rule records and produces a structured
report: unused rules, overly permissive rules, duplicate rules, logging coverage,
summary percentages and a recommendation list.  Below, the Python functions are
shallowly embedded as Lean definitions: JSON scalar fields become `FieldValue`
(absent, string scalar, or list of string scalars), Python floats become the
exact rational values of the IEEE-754 binary64 numbers the program computes
(each arithmetic step correctly rounded, see `toBin64`), and the per-record
loops become structural recursions over the policy list carrying the
enumeration index.
-/

/-- A raw JSON field of a rule record: absent (key missing), a string scalar, or
a list of string scalars.  This covers the field shapes the audit script consumes. -/
inductive FieldValue where
  | absent
  | str (s : String)
  | list (xs : List String)
deriving DecidableEq

/-- Python truthiness of a field value: `None`, `""` and `[]` are falsy. -/
def pyFalsy : FieldValue → Bool
  | .absent => true
  | .str s => s == ""
  | .list xs => xs.isEmpty

/-- The single-quote character Python `repr` puts around string list elements. -/
def pyQuote : String := String.mk [Char.ofNat 39]

/-- Python `str()` applied to a raw field value (`str(None) = "None"`; a list is
rendered with brackets and quoted elements, as `repr` does for quote-free string
scalars). -/
def pyStr : FieldValue → String
  | .absent => "None"
  | .str s => s
  | .list xs => "[" ++ String.intercalate ", " (xs.map (fun x => pyQuote ++ x ++ pyQuote)) ++ "]"

/-- `_safe_string`: a list is joined with `", "`; a falsy value becomes `""`;
any other scalar is stringified (a string scalar is returned as itself). -/
def safeString : FieldValue → String
  | .absent => ""
  | .str s => s
  | .list xs => String.intercalate ", " xs

/-- Python `dict.get(key, default)`: the default is used only when the key is absent. -/
def pGet (v d : FieldValue) : FieldValue :=
  match v with
  | .absent => d
  | x => x

/-- Numeric value of a digit list, most significant first. -/
def digitsToNat (l : List Char) : ℕ :=
  l.foldl (fun a c => a * 10 + (c.toNat - 48)) 0

/-- Integer and fractional digit runs of a decimal token starting at the head of `l`,
mirroring the regex `\d+(?:\.\d+)?` with greedy matching. -/
def readNumberParts (l : List Char) : List Char × List Char :=
  let ds := l.takeWhile Char.isDigit
  let rest := l.dropWhile Char.isDigit
  match rest with
  | '.' :: r2 => (ds, r2.takeWhile Char.isDigit)
  | _ => (ds, [])

/-- `re.search` for `\d+(?:\.\d+)?`: find the leftmost digit and read the maximal
decimal token there; `none` when the string has no digit at all. -/
def searchNumber : List Char → Option (List Char × List Char)
  | [] => none
  | c :: rest => if c.isDigit then some (readNumberParts (c :: rest)) else searchNumber rest

/-- Exact rational value of a matched decimal token: integer digits plus
fractional digits scaled by the matching power of ten. -/
def tokenValue (t : List Char × List Char) : ℚ :=
  mkRat (Int.ofNat (digitsToNat t.1 * 10 ^ t.2.length + digitsToNat t.2)) (10 ^ t.2.length)

/-- `_extract_bytes_value`: `0` for a falsy value or the literal `"0 B"`, otherwise
the value of the first decimal token `re.search` finds anywhere in the string
(`0` when there is none). -/
def extractBytesValue (v : FieldValue) : ℚ :=
  if pyFalsy v = true ∨ v = .str "0 B" then 0
  else
    match searchNumber (pyStr v).data with
    | some t => tokenValue t
    | none => 0

/-- One firewall policy record, with the fields the audit script reads.
`FieldValue.absent` models a missing key. -/
structure Policy where
  policyName : FieldValue := .absent
  action : FieldValue := .absent
  source : FieldValue := .absent
  destination : FieldValue := .absent
  service : FieldValue := .absent
  bytes : FieldValue := .absent
  log : FieldValue := .absent
  interfacePair : FieldValue := .absent
deriving DecidableEq

/-- Python `str.upper()` for the ASCII content the audit compares. -/
def pyUpper (s : String) : String := String.mk (s.data.map Char.toUpper)

/-- Python `str.lower()` for the ASCII content the audit compares. -/
def pyLower (s : String) : String := String.mk (s.data.map Char.toLower)

/-- Python `str.strip()`: drop whitespace from both ends. -/
def pyStrip (s : String) : String :=
  String.mk (((s.data.dropWhile Char.isWhitespace).reverse.dropWhile Char.isWhitespace).reverse)

/-- `_safe_string(policy.get('Action', '')).upper()`. -/
def actionUpper (p : Policy) : String :=
  pyUpper (safeString (pGet p.action (.str "")))

/-- `_safe_string(policy.get('Source', ''))`. -/
def sourceStr (p : Policy) : String :=
  safeString (pGet p.source (.str ""))

/-- `_safe_string(policy.get('Destination', ''))`. -/
def destinationStr (p : Policy) : String :=
  safeString (pGet p.destination (.str ""))

/-- `_safe_string(policy.get('Service', ''))`. -/
def serviceStr (p : Policy) : String :=
  safeString (pGet p.service (.str ""))

/-- `_safe_string(policy.get('Interface Pair', ''))`. -/
def interfacePairStr (p : Policy) : String :=
  safeString (pGet p.interfacePair (.str ""))

/-- `_safe_string(policy.get('Bytes', '0 B'))`. -/
def bytesStrOf (p : Policy) : String :=
  safeString (pGet p.bytes (.str "0 B"))

/-- `_safe_string(policy.get('Policy', f'Rule_{i+1}'))` for the 0-based index `i`. -/
def ruleNameOf (i : ℕ) (p : Policy) : String :=
  safeString (pGet p.policyName (.str ("Rule_" ++ toString (i + 1))))

/-- Does the second character list start with the first? -/
def listStarts : List Char → List Char → Bool
  | [], _ => true
  | _ :: _, [] => false
  | c :: cs, d :: ds => c == d && listStarts cs ds

/-- Does the character list `hay` contain `needle` as a contiguous run? -/
def listInside (needle : List Char) : List Char → Bool
  | [] => needle.isEmpty
  | d :: rest => listStarts needle (d :: rest) || listInside needle rest

/-- Python `needle in hay` substring containment on strings. -/
def strContains (hay needle : String) : Bool :=
  listInside needle.data hay.data

/-- The wildcard test of `audit_permissive_rules`, applied to an already
lower-cased normalized field: membership in `['all', 'any', '']` or substring
containment of `"any"` or `"all"`.  (For the service field the source checks
`'all' in service or 'any' in service`; disjunction order does not change the value.) -/
def isAnyAll (s : String) : Bool :=
  (s == "all" || s == "any" || s == "") || strContains s "any" || strContains s "all"

/-- The `src_any` boolean computed by `audit_permissive_rules` for a record. -/
def srcAnyOf (p : Policy) : Bool := isAnyAll (pyLower (sourceStr p))

/-- The `dst_any` boolean computed by `audit_permissive_rules` for a record. -/
def dstAnyOf (p : Policy) : Bool := isAnyAll (pyLower (destinationStr p))

/-- The `srv_any` boolean computed by `audit_permissive_rules` for a record. -/
def srvAnyOf (p : Policy) : Bool := isAnyAll (pyLower (serviceStr p))

/-- One entry of the `unused_rules` list. -/
structure UnusedFinding where
  id : ℕ
  name : String
  action : String
  bytes : String
  source : String
  destination : String
  service : String
deriving DecidableEq

/-- The record `audit_unused_rules` appends for the 0-based index `i`. -/
def unusedInfoOf (i : ℕ) (p : Policy) : UnusedFinding :=
  { id := i + 1
    name := ruleNameOf i p
    action := actionUpper p
    bytes := bytesStrOf p
    source := sourceStr p
    destination := destinationStr p
    service := serviceStr p }

/-- One entry of the `all_all_rules` / `single_all_rules` lists. -/
structure PermissiveFinding where
  id : ℕ
  name : String
  source : String
  destination : String
  service : String
  srcAny : Bool
  dstAny : Bool
  srvAny : Bool
  riskLevel : String
deriving DecidableEq

/-- The `rule_info` record `audit_permissive_rules` builds for index `i`, with the
risk level it assigns before appending. -/
def permInfoOf (i : ℕ) (p : Policy) (rl : String) : PermissiveFinding :=
  { id := i + 1
    name := ruleNameOf i p
    source := sourceStr p
    destination := destinationStr p
    service := serviceStr p
    srcAny := srcAnyOf p
    dstAny := dstAnyOf p
    srvAny := srvAnyOf p
    riskLevel := rl }

/-- One member entry of a duplicate group. -/
structure DupMember where
  id : ℕ
  name : String
  bytes : String
deriving DecidableEq

/-- The member record `audit_duplicate_rules` appends for index `i`. -/
def dupMemberOf (i : ℕ) (p : Policy) : DupMember :=
  { id := i + 1, name := ruleNameOf i p, bytes := bytesStrOf p }

/-- The duplicate signature: stripped source, destination, service, interface pair
and upper-cased action joined with `"|"` in that fixed order. -/
def signatureOf (p : Policy) : String :=
  pyStrip (sourceStr p) ++ "|" ++ pyStrip (destinationStr p) ++ "|" ++ pyStrip (serviceStr p)
    ++ "|" ++ pyStrip (interfacePairStr p) ++ "|" ++ actionUpper p

/-- One entry of the `duplicate_rules` list. -/
structure DuplicateGroup where
  signature : String
  rules : List DupMember
  count : ℕ
deriving DecidableEq

/-- One entry of the `no_logging` / `with_logging` lists. -/
structure LogFinding where
  id : ℕ
  name : String
  logSetting : String
  action : String
  bytes : String
deriving DecidableEq

/-- The `rule_info` record `audit_logging` builds for index `i`.  Its `action`
field is the raw safe string, not upper-cased. -/
def logInfoOf (i : ℕ) (p : Policy) : LogFinding :=
  { id := i + 1
    name := ruleNameOf i p
    logSetting := safeString (pGet p.log (.str ""))
    action := safeString (pGet p.action (.str ""))
    bytes := bytesStrOf p }

/-- The normalized, trimmed, lower-cased `log_setting` of a record. -/
def logNormOf (p : Policy) : String :=
  pyLower (pyStrip (safeString (pGet p.log (.str ""))))

/-- The `no_logging` branch condition of `audit_logging`. -/
def noLogCond (p : Policy) : Prop :=
  logNormOf p = "" ∨ logNormOf p = "none" ∨ logNormOf p = "disable"

instance (p : Policy) : Decidable (noLogCond p) := by
  unfold noLogCond; infer_instance

/-- A `for i, policy in enumerate(self.policies)` loop that conditionally appends
one element per iteration, as a recursion carrying the 0-based index `i`. -/
def collectAux {α : Type} (f : ℕ → Policy → Option α) (i : ℕ) : List Policy → List α
  | [] => []
  | p :: rest =>
    match f i p with
    | some a => a :: collectAux f (i + 1) rest
    | none => collectAux f (i + 1) rest

/-- Loop body of `audit_unused_rules`: emit when the normalized bytes value is `0`
and the upper-cased action is `ACCEPT`. -/
def unusedStep (i : ℕ) (p : Policy) : Option UnusedFinding :=
  if extractBytesValue (pGet p.bytes (.str "0 B")) = 0 ∧ actionUpper p = "ACCEPT"
  then some (unusedInfoOf i p) else none

/-- `audit_unused_rules`. -/
def auditUnusedRules (policies : List Policy) : List UnusedFinding :=
  collectAux unusedStep 0 policies

/-- `audit_permissive_rules`, as the pair (`all_all_rules`, `single_all_rules`):
an ACCEPT record with some wildcard boolean goes to the first list with risk
`CRITICAL` when all three booleans hold, else to the second with risk `HIGH`. -/
def auditPermissiveAux (i : ℕ) : List Policy → List PermissiveFinding × List PermissiveFinding
  | [] => ([], [])
  | p :: rest =>
    let tail := auditPermissiveAux (i + 1) rest
    if actionUpper p = "ACCEPT" ∧ (srcAnyOf p || dstAnyOf p || srvAnyOf p) = true then
      if (srcAnyOf p && dstAnyOf p && srvAnyOf p) = true
      then (permInfoOf i p "CRITICAL" :: tail.1, tail.2)
      else (tail.1, permInfoOf i p "HIGH" :: tail.2)
    else tail

/-- The two permissiveness finding lists, from index `0`. -/
def auditPermissiveRules (policies : List Policy) : List PermissiveFinding × List PermissiveFinding :=
  auditPermissiveAux 0 policies

/-- Loop body of `audit_duplicate_rules`: non-ACCEPT records are skipped, an
ACCEPT record contributes its signature and member entry. -/
def dupStep (i : ℕ) (p : Policy) : Option (String × DupMember) :=
  if actionUpper p = "ACCEPT" then some (signatureOf p, dupMemberOf i p) else none

/-- The (signature, member) contributions of the input, in input order. -/
def dupEntries (policies : List Policy) : List (String × DupMember) :=
  collectAux dupStep 0 policies

/-- `rule_signatures[signature].append(member)` on an insertion-ordered
association list, as a Python `defaultdict(list)` behaves: append to the existing
group if the signature is present, else add a new group at the end. -/
def addToGroups (sig : String) (m : DupMember) :
    List (String × List DupMember) → List (String × List DupMember)
  | [] => [(sig, [m])]
  | (s, ms) :: rest =>
    if s = sig then (s, ms ++ [m]) :: rest else (s, ms) :: addToGroups sig m rest

/-- The full `rule_signatures` map after the loop of `audit_duplicate_rules`. -/
def buildGroups (es : List (String × DupMember)) : List (String × List DupMember) :=
  es.foldl (fun acc e => addToGroups e.1 e.2 acc) []

/-- `audit_duplicate_rules`: keep the groups with more than one member, in map
iteration (= first-encounter) order. -/
def auditDuplicateRules (policies : List Policy) : List DuplicateGroup :=
  (buildGroups (dupEntries policies)).filterMap fun g =>
    if 1 < g.2.length then some { signature := g.1, rules := g.2, count := g.2.length }
    else none

/-- `audit_logging`, as the pair (`no_logging`, `with_logging`). -/
def auditLoggingAux (i : ℕ) : List Policy → List LogFinding × List LogFinding
  | [] => ([], [])
  | p :: rest =>
    let tail := auditLoggingAux (i + 1) rest
    if noLogCond p then (logInfoOf i p :: tail.1, tail.2)
    else (tail.1, logInfoOf i p :: tail.2)

/-- The two logging finding lists, from index `0`. -/
def auditLogging (policies : List Policy) : List LogFinding × List LogFinding :=
  auditLoggingAux 0 policies

/-- The `self.results` map after all four audit passes have run. -/
structure Results where
  unusedRules : List UnusedFinding
  allAllRules : List PermissiveFinding
  singleAllRules : List PermissiveFinding
  duplicateRules : List DuplicateGroup
  noLogging : List LogFinding
  withLogging : List LogFinding
deriving DecidableEq

/-- Run the four audit passes on the policy list and collect their results. -/
def computeResults (policies : List Policy) : Results :=
  { unusedRules := auditUnusedRules policies
    allAllRules := (auditPermissiveRules policies).1
    singleAllRules := (auditPermissiveRules policies).2
    duplicateRules := auditDuplicateRules policies
    noLogging := (auditLogging policies).1
    withLogging := (auditLogging policies).2 }

/-- One entry of the recommendations list. -/
structure Recommendation where
  priority : String
  category : String
  issue : String
  count : ℕ
  action : String
deriving DecidableEq

/-- `_generate_recommendations`: one fixed entry per nonempty category, emitted
in the source's order — unused, all-wildcard, single-wildcard, duplicates,
no-logging. -/
def generateRecommendations (r : Results) : List Recommendation :=
  (if r.unusedRules ≠ [] then
    [{ priority := "HIGH", category := "Cleanup", issue := "Unused ACCEPT rules",
       count := r.unusedRules.length,
       action := "Remove or disable these rules to reduce attack surface" }] else [])
  ++ (if r.allAllRules ≠ [] then
    [{ priority := "CRITICAL", category := "Security", issue := "Rules with ALL ALL configuration",
       count := r.allAllRules.length,
       action := "URGENT: Restrict source, destination and services - these rules allow everything" }] else [])
  ++ (if r.singleAllRules ≠ [] then
    [{ priority := "HIGH", category := "Security", issue := "Rules with single ALL configuration",
       count := r.singleAllRules.length,
       action := "Restrict sources, destinations and services according to least privilege principle" }] else [])
  ++ (if r.duplicateRules ≠ [] then
    [{ priority := "MEDIUM", category := "Optimization", issue := "Duplicate rules",
       count := r.duplicateRules.length,
       action := "Consolidate or remove redundant rules" }] else [])
  ++ (if 0 < r.noLogging.length then
    [{ priority := "MEDIUM", category := "Monitoring", issue := "Rules without logging",
       count := r.noLogging.length,
       action := "Enable logging for traceability and monitoring" }] else [])

/-- Round a rational to the nearest integer, ties to the even integer. -/
def roundHalfEven (q : ℚ) : ℤ :=
  let f : ℤ := ⌊q⌋
  if q - f < mkRat 1 2 then f
  else if mkRat 1 2 < q - f then f + 1
  else if f % 2 = 0 then f else f + 1

/-- Exact power of two as a rational (negative exponents allowed). -/
def pow2 (e : ℤ) : ℚ :=
  if 0 ≤ e then ((2 ^ e.toNat : ℕ) : ℚ) else mkRat 1 (2 ^ (-e).toNat)

/-- Exact power of ten as a rational (negative exponents allowed). -/
def pow10 (e : ℤ) : ℚ :=
  if 0 ≤ e then ((10 ^ e.toNat : ℕ) : ℚ) else mkRat 1 (10 ^ (-e).toNat)

/-- Round a nonnegative rational to the exact value of the nearest IEEE-754
binary64 float (round to nearest, ties to even significand); results below the
normal range use the fixed subnormal ulp `2^-1074`.  Nonpositive inputs (only
`0` is reachable from the report) map to `0`; overflow is not modelled, as the
report's values never exceed a few hundred. -/
def toBin64 (q : ℚ) : ℚ :=
  if q ≤ 0 then 0
  else
    let e : ℤ := max (Int.log 2 q - 52) (-1074)
    ((roundHalfEven (q / pow2 e) : ℤ) : ℚ) * pow2 e

/-- Python `round(x, 2)` on the exact value of a binary64 float: the value is
correctly rounded to two fractional decimal digits with ties to even, and the
result is the binary64 float nearest to that decimal. -/
def pyRound2 (x : ℚ) : ℚ :=
  toBin64 (mkRat (roundHalfEven (x * 100)) 100)

/-- Correctly round a positive rational to `p` significant decimal digits with
ties to even: returns the digit block `n` (with `10^(p-1) ≤ n < 10^p`) and the
decimal exponent of the leading digit. -/
def sigRound (x : ℚ) (p : ℕ) : ℤ × ℤ :=
  let e10 : ℤ := Int.log 10 x
  let n : ℤ := roundHalfEven (x / pow10 (e10 - p + 1))
  if n = 10 ^ p then (10 ^ (p - 1), e10 + 1) else (n, e10)

/-- The digit selection of Python float `repr`: the shortest correctly-rounded
significant-digit representation (from `p` up to 17 digits) whose value converts
back to the same binary64 float. -/
def shortestFrom (x : ℚ) : ℕ → ℕ → ℤ × ℤ × ℕ
  | p, 0 => ((sigRound x p).1, (sigRound x p).2, p)
  | p, fuel + 1 =>
    let r := sigRound x p
    if toBin64 ((r.1 : ℚ) * pow10 (r.2 - p + 1)) = x then (r.1, r.2, p)
    else shortestFrom x (p + 1) fuel

/-- The exponent field of Python float `repr`, at least two digits wide. -/
def expDigits (n : ℕ) : String :=
  if n < 10 then "0" ++ toString n else toString n

/-- Python `repr` of a nonnegative binary64 value: the shortest round-tripping
decimal, in positional notation when the decimal exponent of the leading digit
lies in `[-4, 16)` and in scientific notation otherwise. -/
def formatDouble (x : ℚ) : String :=
  if x ≤ 0 then "0.0"
  else
    let r := shortestFrom x 1 16
    let ds := toString r.1.toNat
    let e10 := r.2.1
    let p := r.2.2
    if e10 < -4 ∨ 16 ≤ e10 then
      (if p = 1 then ds else ds.take 1 ++ "." ++ ds.drop 1)
        ++ "e" ++ (if e10 < 0 then "-" ++ expDigits (-e10).toNat else "+" ++ expDigits e10.toNat)
    else if (p : ℤ) - 1 ≤ e10 then
      ds ++ String.mk (List.replicate (e10 - ((p : ℤ) - 1)).toNat '0') ++ ".0"
    else if 0 ≤ e10 then
      ds.take (e10.toNat + 1) ++ "." ++ ds.drop (e10.toNat + 1)
    else
      "0." ++ String.mk (List.replicate ((-e10).toNat - 1) '0') ++ ds

/-- The percentage cell of the summary block: the f-string rendering of
`round(count / total * 100, 2)` with a trailing `%` when `total > 0` — binary64
division and multiplication followed by Python's decimal rounding — and the
plain string `0%` when `total = 0` (the division branch is not taken). -/
def percentCell (count total : ℕ) : String :=
  if 0 < total then
    formatDouble (pyRound2 (toBin64 (toBin64 (mkRat count total) * 100))) ++ "%"
  else "0%"

/-- The `summary` block of the report. -/
structure Summary where
  totalRulesAnalyzed : ℕ
  allAllRulesCount : ℕ
  allAllRulesPercent : String
  singleAllRulesCount : ℕ
  singleAllRulesPercent : String
  duplicateGroupsCount : ℕ
  duplicateGroupsPercent : String
  unusedRulesCount : ℕ
  unusedRulesPercent : String
  rulesWithoutLogging : ℕ
  rulesWithoutLoggingPercent : String
deriving DecidableEq

/-- The `detailed_results` block of the report. -/
structure DetailedResults where
  unusedRules : List UnusedFinding
  allAllRules : List PermissiveFinding
  singleAllRules : List PermissiveFinding
  duplicateRules : List DuplicateGroup
  withoutLogging : List LogFinding
deriving DecidableEq

/-- The report document.  The wall-clock date of `audit_info` is out of scope;
its `total_rules` field is kept. -/
structure Report where
  totalRules : ℕ
  summary : Summary
  detailedResults : DetailedResults
  recommendations : List Recommendation
deriving DecidableEq

/-- `generate_json_report` (the document construction; writing it to disk is
peripheral I/O): run the four audits, then assemble the summary, detailed
results and recommendations, with `total` the length of the policy list. -/
def generateJsonReport (policies : List Policy) : Report :=
  let results := computeResults policies
  let total := policies.length
  { totalRules := total
    summary :=
      { totalRulesAnalyzed := total
        allAllRulesCount := results.allAllRules.length
        allAllRulesPercent := percentCell results.allAllRules.length total
        singleAllRulesCount := results.singleAllRules.length
        singleAllRulesPercent := percentCell results.singleAllRules.length total
        duplicateGroupsCount := results.duplicateRules.length
        duplicateGroupsPercent := percentCell results.duplicateRules.length total
        unusedRulesCount := results.unusedRules.length
        unusedRulesPercent := percentCell results.unusedRules.length total
        rulesWithoutLogging := results.noLogging.length
        rulesWithoutLoggingPercent := percentCell results.noLogging.length total }
    detailedResults :=
      { unusedRules := results.unusedRules
        allAllRules := results.allAllRules
        singleAllRules := results.singleAllRules
        duplicateRules := results.duplicateRules
        withoutLogging := results.noLogging }
    recommendations := generateRecommendations results }

/-- The already-parsed JSON document handed to `FortigateAuditor.__init__`:
either a bare list of policies, or an object whose `policies` / `Policy` keys
may hold the list. -/
inductive InputData where
  | list (ps : List Policy)
  | obj (policiesKey : Option (List Policy)) (policyKey : Option (List Policy))
deriving DecidableEq

/-- The unwrap step of `__init__`: a bare list is taken as is; otherwise
`data.get('policies', data.get('Policy', []))`. -/
def unwrapPolicies : InputData → List Policy
  | .list ps => ps
  | .obj pk qk =>
    match pk with
    | some ps => ps
    | none => qk.getD []

/-- The engine run: `__init__` rejects an empty unwrapped policy list (it reports
the error, leaves the results attribute unset and the subsequent report
generation aborts on it, so no report document exists); otherwise the audits run
and the report is assembled. -/
def runAudit (data : InputData) : Option Report :=
  let policies := unwrapPolicies data
  if policies.isEmpty then none else some (generateJsonReport policies)

/-- Emission condition of the `all_all_rules` branch, as one option-valued step. -/
def permAllStep (i : ℕ) (p : Policy) : Option PermissiveFinding :=
  if actionUpper p = "ACCEPT" ∧ (srcAnyOf p || dstAnyOf p || srvAnyOf p) = true
      ∧ (srcAnyOf p && dstAnyOf p && srvAnyOf p) = true
  then some (permInfoOf i p "CRITICAL") else none

/-- Emission condition of the `single_all_rules` branch, as one option-valued step. -/
def permSingleStep (i : ℕ) (p : Policy) : Option PermissiveFinding :=
  if actionUpper p = "ACCEPT" ∧ (srcAnyOf p || dstAnyOf p || srvAnyOf p) = true
      ∧ ¬ (srcAnyOf p && dstAnyOf p && srvAnyOf p) = true
  then some (permInfoOf i p "HIGH") else none

/-- Emission condition of the `no_logging` branch, as one option-valued step. -/
def noLogStep (i : ℕ) (p : Policy) : Option LogFinding :=
  if noLogCond p then some (logInfoOf i p) else none

/-- Emission condition of the `with_logging` branch, as one option-valued step. -/
def withLogStep (i : ℕ) (p : Policy) : Option LogFinding :=
  if noLogCond p then none else some (logInfoOf i p)

/-- A fully wildcarded ACCEPT rule used to exercise the permissiveness theorem. -/
def pcCrit : Policy :=
  { action := .str "ACCEPT", source := .str "all", destination := .str "any",
    service := .str "ALL", bytes := .str "0 B" }

/-- An ACCEPT rule with a nonzero traffic counter. -/
def pcUsed : Policy :=
  { action := .str "ACCEPT", source := .str "lan", destination := .str "wan",
    service := .str "web", bytes := .str "15420 MB" }

/-- A DENY rule with no log setting, exercising the logging partition. -/
def pcNoLog : Policy :=
  { action := .str "DENY", source := .str "lan", destination := .str "wan" }

/-- A record whose source and service merely contain the letters of `all`,
exercising the substring-containment wildcard test. -/
def pcSubstr : Policy :=
  { action := .str "ACCEPT", source := .str "ALL-EXCEPT-DMZ",
    destination := .str "10.0.0.0/8", service := .str "Call-Center" }

/-- An ACCEPT record with source, destination and service all absent. -/
def pcAbsent : Policy := { action := .str "accept" }

/-- Does the string start with a digit, i.e. carry a leading numeric token? -/
def hasLeadingDigit (s : String) : Bool :=
  match s.data with
  | [] => false
  | c :: _ => c.isDigit

/-- Position of a recommendation in the order the specification claims:
all-wildcard, single-wildcard, unused, duplicates, no-logging. -/
def recSpecIndex (rec : Recommendation) : ℕ :=
  if rec.issue = "Rules with ALL ALL configuration" then 0
  else if rec.issue = "Rules with single ALL configuration" then 1
  else if rec.issue = "Unused ACCEPT rules" then 2
  else if rec.issue = "Duplicate rules" then 3
  else 4

/-- Position of a recommendation in the order the source emits: unused,
all-wildcard, single-wildcard, duplicates, no-logging. -/
def recCodeIndex (rec : Recommendation) : ℕ :=
  if rec.issue = "Unused ACCEPT rules" then 0
  else if rec.issue = "Rules with ALL ALL configuration" then 1
  else if rec.issue = "Rules with single ALL configuration" then 2
  else if rec.issue = "Duplicate rules" then 3
  else 4

/-- A fully wildcarded unused unlogged ACCEPT rule: its results trigger the
unused, all-wildcard and no-logging recommendations at once. -/
def c1Policy : Policy :=
  { action := .str "ACCEPT", source := .str "all", destination := .str "all",
    service := .str "all", bytes := .str "0 B" }

/-- The signatures present in the grouping map, in insertion order. -/
def keysOf : List (String × List DupMember) → List String
  | [] => []
  | g :: rest => g.1 :: keysOf rest

/-- Look up the member list of a signature (empty when absent). -/
def findGroup (s : String) : List (String × List DupMember) → List DupMember
  | [] => []
  | g :: rest => if g.1 = s then g.2 else findGroup s rest

/-- Boolean membership of a string in a key list. -/
def keyMem (s : String) : List String → Bool
  | [] => false
  | k :: rest => s == k || keyMem s rest

/-- Deduplicate a list keeping the first occurrence of every element, in order of
first occurrence. -/
def firstSeen : List String → List String
  | [] => []
  | s :: rest => s :: firstSeen (rest.filter (fun t => !(t == s)))
termination_by l => l.length
decreasing_by
  simp only [List.length_cons]
  exact Nat.lt_succ_of_le (List.length_filter_le _ _)

/-- First member of a concrete duplicate pair: whitespace-padded source and a
lower-case action, which still normalize onto the shared signature. -/
def pcDupA : Policy :=
  { action := .str "accept", source := .str " all ", destination := .str "x",
    service := .str "web", interfacePair := .str "wan-lan", bytes := .str "5 MB" }

/-- Second member of the concrete duplicate pair. -/
def pcDupB : Policy :=
  { action := .str "ACCEPT", source := .str "all", destination := .str "x",
    service := .str "web", interfacePair := .str "wan-lan" }

/-- The duplicate group the detector emits for the concrete pair. -/
def dupGroupW : DuplicateGroup :=
  { signature := "all|x|web|wan-lan|ACCEPT",
    rules := [dupMemberOf 0 pcDupA, dupMemberOf 1 pcDupB], count := 2 }

/-! ### Theorems -/

theorem collectAux_mem {α : Type} (f : ℕ → Policy → Option α) :
    ∀ (l : List Policy) (i : ℕ) (a : α),
      a ∈ collectAux f i l ↔ ∃ j p, l[j]? = some p ∧ f (i + j) p = some a := by
  intro l
  induction l with
  | nil => intro i a; simp [collectAux]
  | cons p rest ih =>
    intro i a
    constructor
    · intro h
      rcases hf : f i p with _ | b
      · rw [collectAux, hf] at h
        rcases (ih (i + 1) a).1 h with ⟨j, q, hq, ha⟩
        refine ⟨j + 1, q, by simpa using hq, ?_⟩
        have hidx : i + (j + 1) = i + 1 + j := by omega
        rw [hidx]; exact ha
      · rw [collectAux, hf] at h
        rcases List.mem_cons.1 h with hab | hmem
        · exact ⟨0, p, List.getElem?_cons_zero, by rw [Nat.add_zero, hf, hab]⟩
        · rcases (ih (i + 1) a).1 hmem with ⟨j, q, hq, ha⟩
          refine ⟨j + 1, q, by simpa using hq, ?_⟩
          have hidx : i + (j + 1) = i + 1 + j := by omega
          rw [hidx]; exact ha
    · rintro ⟨j, q, hq, ha⟩
      match j with
      | 0 =>
        rw [List.getElem?_cons_zero] at hq
        injection hq with hq
        subst hq
        rw [Nat.add_zero] at ha
        rw [collectAux, ha]
        exact List.mem_cons_self a _
      | j' + 1 =>
        rw [List.getElem?_cons_succ] at hq
        have hidx : i + (j' + 1) = i + 1 + j' := by omega
        rw [hidx] at ha
        have hmem := (ih (i + 1) a).2 ⟨j', q, hq, ha⟩
        rcases hf : f i p with _ | b <;> rw [collectAux, hf]
        · exact hmem
        · exact List.mem_cons_of_mem b hmem

theorem auditPermissiveAux_eq (l : List Policy) :
    ∀ i, auditPermissiveAux i l =
      (collectAux permAllStep i l, collectAux permSingleStep i l) := by
  induction l with
  | nil => intro i; rfl
  | cons p rest ih =>
    intro i
    by_cases h1 : actionUpper p = "ACCEPT" ∧ (srcAnyOf p || dstAnyOf p || srvAnyOf p) = true
    · by_cases h2 : (srcAnyOf p && dstAnyOf p && srvAnyOf p) = true
      · simp [auditPermissiveAux, collectAux, permAllStep, permSingleStep, ih, h1.1, h1.2, h2]
      · simp [auditPermissiveAux, collectAux, permAllStep, permSingleStep, ih, h1.1, h1.2, h2]
    · rw [auditPermissiveAux, collectAux, collectAux]
      rw [permAllStep, permSingleStep]
      rw [if_neg h1, if_neg (by tauto), if_neg (by tauto)]
      exact ih (i + 1)

theorem auditLoggingAux_eq (l : List Policy) :
    ∀ i, auditLoggingAux i l = (collectAux noLogStep i l, collectAux withLogStep i l) := by
  induction l with
  | nil => intro i; rfl
  | cons p rest ih =>
    intro i
    by_cases h : noLogCond p
    · simp [auditLoggingAux, collectAux, noLogStep, withLogStep, ih, h]
    · simp [auditLoggingAux, collectAux, noLogStep, withLogStep, ih, h]

theorem auditLoggingAux_length (l : List Policy) :
    ∀ i, (auditLoggingAux i l).1.length + (auditLoggingAux i l).2.length = l.length := by
  induction l with
  | nil => intro i; rfl
  | cons p rest ih =>
    intro i
    by_cases h : noLogCond p
    · simp only [auditLoggingAux, if_pos h, List.length_cons]
      have := ih (i + 1)
      omega
    · simp only [auditLoggingAux, if_neg h, List.length_cons]
      have := ih (i + 1)
      omega

theorem boolAndImpOr : ∀ a b c : Bool, (a && b && c) = true → (a || b || c) = true := by
  decide

/-- C2: an input record with upper-cased action `ACCEPT` and at least one wildcard
boolean is placed in exactly one of the two permissiveness lists — in
`all_all_rules` with risk `CRITICAL` when all three booleans hold, else in
`single_all_rules` with risk `HIGH`; records with no wildcard boolean or a
non-ACCEPT action are in neither list, and the two lists carry disjoint rule ids. -/
theorem c2_permissive_two_tier (policies : List Policy) :
    (∀ f, f ∈ (auditPermissiveRules policies).1 ↔
      ∃ j p, policies[j]? = some p ∧ actionUpper p = "ACCEPT"
        ∧ (srcAnyOf p && dstAnyOf p && srvAnyOf p) = true
        ∧ f = permInfoOf j p "CRITICAL")
    ∧ (∀ f, f ∈ (auditPermissiveRules policies).2 ↔
      ∃ j p, policies[j]? = some p ∧ actionUpper p = "ACCEPT"
        ∧ (srcAnyOf p || dstAnyOf p || srvAnyOf p) = true
        ∧ (srcAnyOf p && dstAnyOf p && srvAnyOf p) = false
        ∧ f = permInfoOf j p "HIGH")
    ∧ ∀ f g, f ∈ (auditPermissiveRules policies).1 →
        g ∈ (auditPermissiveRules policies).2 → f.id ≠ g.id := by
  have hbridge : auditPermissiveRules policies =
      (collectAux permAllStep 0 policies, collectAux permSingleStep 0 policies) :=
    auditPermissiveAux_eq policies 0
  have hall : ∀ f, f ∈ (auditPermissiveRules policies).1 ↔
      ∃ j p, policies[j]? = some p ∧ actionUpper p = "ACCEPT"
        ∧ (srcAnyOf p && dstAnyOf p && srvAnyOf p) = true
        ∧ f = permInfoOf j p "CRITICAL" := by
    intro f
    rw [hbridge]
    rw [collectAux_mem]
    constructor
    · rintro ⟨j, p, hj, hstep⟩
      rw [permAllStep] at hstep
      by_cases hc : actionUpper p = "ACCEPT" ∧ (srcAnyOf p || dstAnyOf p || srvAnyOf p) = true
          ∧ (srcAnyOf p && dstAnyOf p && srvAnyOf p) = true
      · rw [if_pos hc] at hstep
        injection hstep with hstep
        exact ⟨j, p, hj, hc.1, hc.2.2, by rw [← hstep, Nat.zero_add]⟩
      · rw [if_neg hc] at hstep
        exact Option.noConfusion hstep
    · rintro ⟨j, p, hj, ha, hand, hf⟩
      refine ⟨j, p, hj, ?_⟩
      rw [permAllStep, if_pos ⟨ha, boolAndImpOr _ _ _ hand, hand⟩, Nat.zero_add, hf]
  have hsingle : ∀ f, f ∈ (auditPermissiveRules policies).2 ↔
      ∃ j p, policies[j]? = some p ∧ actionUpper p = "ACCEPT"
        ∧ (srcAnyOf p || dstAnyOf p || srvAnyOf p) = true
        ∧ (srcAnyOf p && dstAnyOf p && srvAnyOf p) = false
        ∧ f = permInfoOf j p "HIGH" := by
    intro f
    rw [hbridge]
    rw [collectAux_mem]
    constructor
    · rintro ⟨j, p, hj, hstep⟩
      rw [permSingleStep] at hstep
      by_cases hc : actionUpper p = "ACCEPT" ∧ (srcAnyOf p || dstAnyOf p || srvAnyOf p) = true
          ∧ ¬ (srcAnyOf p && dstAnyOf p && srvAnyOf p) = true
      · rw [if_pos hc] at hstep
        injection hstep with hstep
        exact ⟨j, p, hj, hc.1, hc.2.1, by simpa using hc.2.2, by rw [← hstep, Nat.zero_add]⟩
      · rw [if_neg hc] at hstep
        exact Option.noConfusion hstep
    · rintro ⟨j, p, hj, ha, hor, hand, hf⟩
      refine ⟨j, p, hj, ?_⟩
      rw [permSingleStep, if_pos ⟨ha, hor, by simp [hand]⟩, Nat.zero_add, hf]
  refine ⟨hall, hsingle, ?_⟩
  intro f g hf hg hid
  rcases (hall f).1 hf with ⟨j, p, hj, _, hand, hfe⟩
  rcases (hsingle g).1 hg with ⟨k, q, hk, _, _, handf, hge⟩
  have hfid : f.id = j + 1 := by rw [hfe]; rfl
  have hgid : g.id = k + 1 := by rw [hge]; rfl
  have hjk : j = k := by omega
  subst hjk
  rw [hj] at hk
  injection hk with hk
  subst hk
  rw [hand] at handf
  exact Bool.noConfusion handf

/-- Witness for C2 at a concrete all-wildcard ACCEPT record. -/
theorem c2_permissive_two_tier_witness :
    permInfoOf 0 pcCrit "CRITICAL" ∈ (auditPermissiveRules [pcCrit]).1 :=
  ((c2_permissive_two_tier [pcCrit]).1 (permInfoOf 0 pcCrit "CRITICAL")).mpr
    ⟨0, pcCrit, rfl, by decide, by decide, rfl⟩

/-- C5: a record is flagged unused exactly when its upper-cased action is
`ACCEPT` and its normalized bytes value is `0`; a record whose bytes field is
the string `"15420 MB"` is never flagged. -/
theorem c5_unused_rules_iff (policies : List Policy) :
    (∀ f, f ∈ auditUnusedRules policies ↔
      ∃ j p, policies[j]? = some p
        ∧ extractBytesValue (pGet p.bytes (.str "0 B")) = 0
        ∧ actionUpper p = "ACCEPT" ∧ f = unusedInfoOf j p)
    ∧ ∀ j p, policies[j]? = some p → pGet p.bytes (.str "0 B") = .str "15420 MB" →
        unusedInfoOf j p ∉ auditUnusedRules policies := by
  have hmem : ∀ f, f ∈ auditUnusedRules policies ↔
      ∃ j p, policies[j]? = some p
        ∧ extractBytesValue (pGet p.bytes (.str "0 B")) = 0
        ∧ actionUpper p = "ACCEPT" ∧ f = unusedInfoOf j p := by
    intro f
    rw [auditUnusedRules, collectAux_mem]
    constructor
    · rintro ⟨j, p, hj, hstep⟩
      rw [unusedStep] at hstep
      by_cases hc : extractBytesValue (pGet p.bytes (.str "0 B")) = 0 ∧ actionUpper p = "ACCEPT"
      · rw [if_pos hc] at hstep
        injection hstep with hstep
        exact ⟨j, p, hj, hc.1, hc.2, by rw [← hstep, Nat.zero_add]⟩
      · rw [if_neg hc] at hstep
        exact Option.noConfusion hstep
    · rintro ⟨j, p, hj, hb, ha, hf⟩
      refine ⟨j, p, hj, ?_⟩
      rw [unusedStep, if_pos ⟨hb, ha⟩, Nat.zero_add, hf]
  refine ⟨hmem, ?_⟩
  intro j p hj hbytes hin
  rcases (hmem (unusedInfoOf j p)).1 hin with ⟨k, q, hk, hb, _, he⟩
  have hjid : (unusedInfoOf j p).id = j + 1 := rfl
  have hkid : (unusedInfoOf k q).id = k + 1 := rfl
  rw [he] at hjid
  have hjk : j = k := by omega
  subst hjk
  rw [hj] at hk
  injection hk with hk
  subst hk
  rw [hbytes] at hb
  exact absurd hb (by decide)

/-- Witness for C5: the concrete `"15420 MB"` record is not flagged unused. -/
theorem c5_unused_rules_iff_witness :
    unusedInfoOf 0 pcUsed ∉ auditUnusedRules [pcUsed] :=
  (c5_unused_rules_iff [pcUsed]).2 0 pcUsed rfl rfl

/-- C7: `audit_logging` partitions every record, regardless of action, into
exactly one of the two lists; a record goes to `no_logging` exactly when its
normalized, trimmed, lower-cased log setting is `""`, `"none"` or `"disable"`. -/
theorem c7_logging_partition (policies : List Policy) :
    ((auditLogging policies).1.length + (auditLogging policies).2.length = policies.length)
    ∧ (∀ f, f ∈ (auditLogging policies).1 ↔
        ∃ j p, policies[j]? = some p ∧ noLogCond p ∧ f = logInfoOf j p)
    ∧ (∀ f, f ∈ (auditLogging policies).2 ↔
        ∃ j p, policies[j]? = some p ∧ ¬ noLogCond p ∧ f = logInfoOf j p)
    ∧ ∀ j p, policies[j]? = some p →
        (logInfoOf j p ∈ (auditLogging policies).1 ∧ logInfoOf j p ∉ (auditLogging policies).2)
        ∨ (logInfoOf j p ∉ (auditLogging policies).1 ∧ logInfoOf j p ∈ (auditLogging policies).2) := by
  have hbridge : auditLogging policies =
      (collectAux noLogStep 0 policies, collectAux withLogStep 0 policies) :=
    auditLoggingAux_eq policies 0
  have hno : ∀ f, f ∈ (auditLogging policies).1 ↔
      ∃ j p, policies[j]? = some p ∧ noLogCond p ∧ f = logInfoOf j p := by
    intro f
    rw [hbridge]
    rw [collectAux_mem]
    constructor
    · rintro ⟨j, p, hj, hstep⟩
      rw [noLogStep] at hstep
      by_cases hc : noLogCond p
      · rw [if_pos hc] at hstep
        injection hstep with hstep
        exact ⟨j, p, hj, hc, by rw [← hstep, Nat.zero_add]⟩
      · rw [if_neg hc] at hstep
        exact Option.noConfusion hstep
    · rintro ⟨j, p, hj, hc, hf⟩
      refine ⟨j, p, hj, ?_⟩
      rw [noLogStep, if_pos hc, Nat.zero_add, hf]
  have hwith : ∀ f, f ∈ (auditLogging policies).2 ↔
      ∃ j p, policies[j]? = some p ∧ ¬ noLogCond p ∧ f = logInfoOf j p := by
    intro f
    rw [hbridge]
    rw [collectAux_mem]
    constructor
    · rintro ⟨j, p, hj, hstep⟩
      rw [withLogStep] at hstep
      by_cases hc : noLogCond p
      · rw [if_pos hc] at hstep
        exact Option.noConfusion hstep
      · rw [if_neg hc] at hstep
        injection hstep with hstep
        exact ⟨j, p, hj, hc, by rw [← hstep, Nat.zero_add]⟩
    · rintro ⟨j, p, hj, hc, hf⟩
      refine ⟨j, p, hj, ?_⟩
      rw [withLogStep, if_neg hc, Nat.zero_add, hf]
  have hlen := auditLoggingAux_length policies 0
  refine ⟨hlen, hno, hwith, ?_⟩
  intro j p hj
  by_cases hc : noLogCond p
  · left
    refine ⟨(hno _).2 ⟨j, p, hj, hc, rfl⟩, ?_⟩
    intro hin
    rcases (hwith _).1 hin with ⟨k, q, hk, hnc, he⟩
    have hjid : (logInfoOf j p).id = j + 1 := rfl
    rw [he] at hjid
    have hkid : (logInfoOf k q).id = k + 1 := rfl
    have hjk : j = k := by omega
    subst hjk
    rw [hj] at hk
    injection hk with hk
    subst hk
    exact hnc hc
  · right
    refine ⟨?_, (hwith _).2 ⟨j, p, hj, hc, rfl⟩⟩
    intro hin
    rcases (hno _).1 hin with ⟨k, q, hk, hnc, he⟩
    have hjid : (logInfoOf j p).id = j + 1 := rfl
    rw [he] at hjid
    have hkid : (logInfoOf k q).id = k + 1 := rfl
    have hjk : j = k := by omega
    subst hjk
    rw [hj] at hk
    injection hk with hk
    subst hk
    exact hc hnc

/-- Witness for C7 at a concrete record with an absent log setting. -/
theorem c7_logging_partition_witness :
    (logInfoOf 0 pcNoLog ∈ (auditLogging [pcNoLog]).1
      ∧ logInfoOf 0 pcNoLog ∉ (auditLogging [pcNoLog]).2)
    ∨ (logInfoOf 0 pcNoLog ∉ (auditLogging [pcNoLog]).1
      ∧ logInfoOf 0 pcNoLog ∈ (auditLogging [pcNoLog]).2) :=
  (c7_logging_partition [pcNoLog]).2.2.2 0 pcNoLog rfl

/-- C9: the wildcard test is case-insensitive substring containment: whenever the
lower-cased normalized field contains `"all"` or `"any"` as a substring, the
corresponding wildcard boolean of the permissiveness classifier is true. -/
theorem c9_wildcard_substring (p : Policy) :
    (strContains (pyLower (sourceStr p)) "all" = true
        ∨ strContains (pyLower (sourceStr p)) "any" = true →
      srcAnyOf p = true)
    ∧ (strContains (pyLower (destinationStr p)) "all" = true
        ∨ strContains (pyLower (destinationStr p)) "any" = true →
      dstAnyOf p = true)
    ∧ (strContains (pyLower (serviceStr p)) "all" = true
        ∨ strContains (pyLower (serviceStr p)) "any" = true →
      srvAnyOf p = true) := by
  refine ⟨?_, ?_, ?_⟩
  · intro h
    rw [srcAnyOf, isAnyAll]
    rcases h with h | h <;> simp [h]
  · intro h
    rw [dstAnyOf, isAnyAll]
    rcases h with h | h <;> simp [h]
  · intro h
    rw [srvAnyOf, isAnyAll]
    rcases h with h | h <;> simp [h]

/-- Witness for C9: `"ALL-EXCEPT-DMZ"` and `"Call-Center"` both trip the
wildcard test by containment. -/
theorem c9_wildcard_substring_witness :
    srcAnyOf pcSubstr = true ∧ srvAnyOf pcSubstr = true :=
  ⟨(c9_wildcard_substring pcSubstr).1 (Or.inl (by decide)),
   (c9_wildcard_substring pcSubstr).2.2 (Or.inl (by decide))⟩

/-- C10: an absent source, destination or service normalizes to the empty string
and makes the corresponding wildcard boolean true; an ACCEPT record with all
three absent is placed in the all-wildcard list with risk `CRITICAL`. -/
theorem c10_absent_fields_critical (policies : List Policy) :
    (∀ p : Policy, (p.source = .absent → srcAnyOf p = true)
      ∧ (p.destination = .absent → dstAnyOf p = true)
      ∧ (p.service = .absent → srvAnyOf p = true))
    ∧ ∀ j p, policies[j]? = some p → p.source = .absent → p.destination = .absent →
        p.service = .absent → actionUpper p = "ACCEPT" →
        permInfoOf j p "CRITICAL" ∈ (auditPermissiveRules policies).1 := by
  constructor
  · intro p
    refine ⟨?_, ?_, ?_⟩ <;> intro h
    · rw [srcAnyOf, sourceStr, h]; decide
    · rw [dstAnyOf, destinationStr, h]; decide
    · rw [srvAnyOf, serviceStr, h]; decide
  · intro j p hj hs hd hv ha
    have h1 : srcAnyOf p = true := by rw [srcAnyOf, sourceStr, hs]; decide
    have h2 : dstAnyOf p = true := by rw [dstAnyOf, destinationStr, hd]; decide
    have h3 : srvAnyOf p = true := by rw [srvAnyOf, serviceStr, hv]; decide
    have hbridge : auditPermissiveRules policies =
        (collectAux permAllStep 0 policies, collectAux permSingleStep 0 policies) :=
      auditPermissiveAux_eq policies 0
    rw [hbridge]
    rw [collectAux_mem]
    refine ⟨j, p, hj, ?_⟩
    rw [permAllStep, if_pos ⟨ha, by simp [h1, h2, h3], by simp [h1, h2, h3]⟩, Nat.zero_add]

/-- Witness for C10 at a concrete record with everything absent except the action. -/
theorem c10_absent_fields_critical_witness :
    permInfoOf 0 pcAbsent "CRITICAL" ∈ (auditPermissiveRules [pcAbsent]).1 :=
  (c10_absent_fields_critical [pcAbsent]).2 0 pcAbsent rfl rfl rfl rfl (by decide)

/-- C4: an input that unwraps to an empty policy list makes the engine fail:
no report document is produced. -/
theorem c4_empty_input_no_report (data : InputData) (h : unwrapPolicies data = []) :
    runAudit data = none := by
  rw [runAudit, h]
  rfl

/-- Witness for C4 at the concrete empty bare list. -/
theorem c4_empty_input_no_report_witness : runAudit (.list []) = none :=
  c4_empty_input_no_report (.list []) rfl

/-- C3 counterexample: the string `"MB 15420"` has no leading numeric token, yet
the extractor returns `15420`, not `0` — `re.search` finds the first number
anywhere, not only at the start. -/
theorem c3_no_leading_token_counterexample :
    hasLeadingDigit "MB 15420" = false
      ∧ extractBytesValue (.str "MB 15420") = 15420
      ∧ ¬ extractBytesValue (.str "MB 15420") = 0 :=
  ⟨by decide, by decide, by decide⟩

theorem searchNumber_eq_dropWhile (l : List Char) :
    searchNumber l =
      match l.dropWhile (fun c => !c.isDigit) with
      | [] => none
      | c :: rest => some (readNumberParts (c :: rest)) := by
  induction l with
  | nil => rfl
  | cons c rest ih =>
    by_cases h : c.isDigit
    · simp [searchNumber, List.dropWhile, h]
    · simp only [searchNumber, List.dropWhile, h, Bool.not_false, if_neg, ite_false,
        Bool.not_true, if_true, ite_true]
      simpa using ih

/-- C3 amended: the extractor returns the value of the first decimal number
occurring anywhere in the string (all characters before the first digit are
skipped); it returns `0` when the value is falsy or is literally `"0 B"`, when
the string contains no digit at all, or when the first numeric token itself
denotes zero — so `"15420 MB"` gives `15420`, `"0 B"` and the absent value give
`0`, and `"0 MB"` also gives `0` via its token `"0"`. -/
theorem c3_first_number_anywhere (v : FieldValue) :
    (extractBytesValue v =
      if pyFalsy v = true ∨ v = .str "0 B" then 0
      else
        match (pyStr v).data.dropWhile (fun c => !c.isDigit) with
        | [] => 0
        | c :: rest => tokenValue (readNumberParts (c :: rest)))
    ∧ extractBytesValue (.str "15420 MB") = 15420
    ∧ extractBytesValue (.str "0 B") = 0
    ∧ extractBytesValue .absent = 0
    ∧ extractBytesValue (.str "0 MB") = 0 := by
  refine ⟨?_, by decide, by decide, by decide, by decide⟩
  by_cases hb : pyFalsy v = true ∨ v = .str "0 B"
  · rw [extractBytesValue, if_pos hb, if_pos hb]
  · rw [extractBytesValue, if_neg hb, if_neg hb, searchNumber_eq_dropWhile]
    cases hd : (pyStr v).data.dropWhile (fun c => !c.isDigit) with
    | nil => rfl
    | cons c rest => rfl

/-- C8: in the assembled report the summary counts are the lengths of the
classifier result lists (numeric fields); each percent cell is the string
rendering of `round(count / total * 100, 2)` — binary64 division and
multiplication followed by Python's decimal rounding and float formatting —
with a trailing `%` when the total is positive; and every percent cell is the
plain string `"0%"` when the total is zero (the division branch is not taken). -/
theorem c8_summary_percentages (policies : List Policy) :
    ((generateJsonReport policies).summary.totalRulesAnalyzed = policies.length)
    ∧ ((generateJsonReport policies).summary.allAllRulesCount
        = (computeResults policies).allAllRules.length
      ∧ (generateJsonReport policies).summary.allAllRulesPercent
        = (if 0 < policies.length
           then formatDouble (pyRound2 (toBin64 (toBin64
              (mkRat (computeResults policies).allAllRules.length policies.length) * 100))) ++ "%"
           else "0%")
      ∧ (generateJsonReport policies).summary.singleAllRulesCount
        = (computeResults policies).singleAllRules.length
      ∧ (generateJsonReport policies).summary.singleAllRulesPercent
        = (if 0 < policies.length
           then formatDouble (pyRound2 (toBin64 (toBin64
              (mkRat (computeResults policies).singleAllRules.length policies.length) * 100))) ++ "%"
           else "0%")
      ∧ (generateJsonReport policies).summary.duplicateGroupsCount
        = (computeResults policies).duplicateRules.length
      ∧ (generateJsonReport policies).summary.duplicateGroupsPercent
        = (if 0 < policies.length
           then formatDouble (pyRound2 (toBin64 (toBin64
              (mkRat (computeResults policies).duplicateRules.length policies.length) * 100))) ++ "%"
           else "0%")
      ∧ (generateJsonReport policies).summary.unusedRulesCount
        = (computeResults policies).unusedRules.length
      ∧ (generateJsonReport policies).summary.unusedRulesPercent
        = (if 0 < policies.length
           then formatDouble (pyRound2 (toBin64 (toBin64
              (mkRat (computeResults policies).unusedRules.length policies.length) * 100))) ++ "%"
           else "0%")
      ∧ (generateJsonReport policies).summary.rulesWithoutLogging
        = (computeResults policies).noLogging.length
      ∧ (generateJsonReport policies).summary.rulesWithoutLoggingPercent
        = (if 0 < policies.length
           then formatDouble (pyRound2 (toBin64 (toBin64
              (mkRat (computeResults policies).noLogging.length policies.length) * 100))) ++ "%"
           else "0%"))
    ∧ (policies.length = 0 →
        (generateJsonReport policies).summary.allAllRulesPercent = "0%"
        ∧ (generateJsonReport policies).summary.singleAllRulesPercent = "0%"
        ∧ (generateJsonReport policies).summary.duplicateGroupsPercent = "0%"
        ∧ (generateJsonReport policies).summary.unusedRulesPercent = "0%"
        ∧ (generateJsonReport policies).summary.rulesWithoutLoggingPercent = "0%") := by
  refine ⟨rfl, ⟨rfl, rfl, rfl, rfl, rfl, rfl, rfl, rfl, rfl, rfl⟩, ?_⟩
  intro h
  refine ⟨?_, ?_, ?_, ?_, ?_⟩ <;>
    · show percentCell _ policies.length = "0%"
      rw [h]
      rfl

/-- Witness for C8: the empty input renders every percent cell as `"0%"`. -/
theorem c8_summary_percentages_witness :
    (generateJsonReport []).summary.allAllRulesPercent = "0%"
      ∧ (generateJsonReport []).summary.singleAllRulesPercent = "0%"
      ∧ (generateJsonReport []).summary.duplicateGroupsPercent = "0%"
      ∧ (generateJsonReport []).summary.unusedRulesPercent = "0%"
      ∧ (generateJsonReport []).summary.rulesWithoutLoggingPercent = "0%" :=
  (c8_summary_percentages []).2.2 rfl

/-- C1 counterexample: on a concrete reachable results map holding both an unused
finding and an all-wildcard finding, the recommendation list is NOT sorted in the
claimed order (CRITICAL all-wildcard first): the unused entry precedes it. -/
theorem c1_order_counterexample :
    ¬ List.Pairwise (fun a b => a ≤ b)
        ((generateRecommendations (computeResults [c1Policy])).map recSpecIndex) := by
  decide

/-- C1 amended: the recommendation list contains an entry for a category iff that
category's count is positive, and the entries appear in the source's fixed order
unused → all-wildcard → single-wildcard → duplicates → no-logging. -/
theorem c1_recommendations_amended (r : Results) :
    ((∃ rec ∈ generateRecommendations r, rec.issue = "Unused ACCEPT rules")
        ↔ r.unusedRules ≠ [])
    ∧ ((∃ rec ∈ generateRecommendations r, rec.issue = "Rules with ALL ALL configuration")
        ↔ r.allAllRules ≠ [])
    ∧ ((∃ rec ∈ generateRecommendations r, rec.issue = "Rules with single ALL configuration")
        ↔ r.singleAllRules ≠ [])
    ∧ ((∃ rec ∈ generateRecommendations r, rec.issue = "Duplicate rules")
        ↔ r.duplicateRules ≠ [])
    ∧ ((∃ rec ∈ generateRecommendations r, rec.issue = "Rules without logging")
        ↔ 0 < r.noLogging.length)
    ∧ List.Pairwise (fun a b => recCodeIndex a < recCodeIndex b)
        (generateRecommendations r) := by
  rcases eq_or_ne r.unusedRules [] with h1 | h1 <;>
  rcases eq_or_ne r.allAllRules [] with h2 | h2 <;>
  rcases eq_or_ne r.singleAllRules [] with h3 | h3 <;>
  rcases eq_or_ne r.duplicateRules [] with h4 | h4 <;>
  rcases Nat.eq_zero_or_pos r.noLogging.length with h5 | h5 <;>
    simp +decide [generateRecommendations, recCodeIndex, h1, h2, h3, h4, h5,
      List.pairwise_cons]

/-- Witness for the amended C1 at a concrete reachable results map. -/
theorem c1_recommendations_amended_witness :
    List.Pairwise (fun a b => recCodeIndex a < recCodeIndex b)
      (generateRecommendations (computeResults [c1Policy])) :=
  (c1_recommendations_amended (computeResults [c1Policy])).2.2.2.2.2

theorem keyMem_append (s : String) (l₁ l₂ : List String) :
    keyMem s (l₁ ++ l₂) = (keyMem s l₁ || keyMem s l₂) := by
  induction l₁ with
  | nil => simp [keyMem]
  | cons k rest ih => simp [keyMem, ih, Bool.or_assoc]

theorem keyMem_iff (s : String) (l : List String) : keyMem s l = true ↔ s ∈ l := by
  induction l with
  | nil => simp [keyMem]
  | cons k rest ih => simp [keyMem, ih]

theorem filterTwice {α : Type} (p q : α → Bool) (l : List α) :
    (l.filter p).filter q = l.filter (fun a => p a && q a) := by
  induction l with
  | nil => rfl
  | cons x xs ih =>
    by_cases hp : p x = true
    · by_cases hq : q x = true
      · simp [List.filter_cons, hp, hq, ih]
      · simp [List.filter_cons, hp, hq, ih]
    · simp [List.filter_cons, hp, ih]

theorem keysOf_addToGroups (sig : String) (m : DupMember)
    (acc : List (String × List DupMember)) :
    keysOf (addToGroups sig m acc)
      = if keyMem sig (keysOf acc) = true then keysOf acc else keysOf acc ++ [sig] := by
  induction acc with
  | nil => simp [addToGroups, keysOf, keyMem]
  | cons g rest ih =>
    obtain ⟨s, ms⟩ := g
    by_cases h : s = sig
    · subst h
      simp [addToGroups, keysOf, keyMem]
    · have hne : (sig == s) = false := by
        simp only [beq_eq_false_iff_ne, ne_eq]
        exact fun hh => h hh.symm
      by_cases h2 : keyMem sig (keysOf rest) = true
      · simp [addToGroups, keysOf, keyMem, h, ih, h2, hne]
      · simp [addToGroups, keysOf, keyMem, h, ih, h2, hne]

theorem findGroup_addToGroups_self (sig : String) (m : DupMember)
    (acc : List (String × List DupMember)) :
    findGroup sig (addToGroups sig m acc) = findGroup sig acc ++ [m] := by
  induction acc with
  | nil => simp [addToGroups, findGroup]
  | cons g rest ih =>
    obtain ⟨s, ms⟩ := g
    by_cases h : s = sig
    · subst h
      simp [addToGroups, findGroup]
    · simp [addToGroups, findGroup, h, ih]

theorem findGroup_addToGroups_ne (sig t : String) (m : DupMember) (hne : t ≠ sig)
    (acc : List (String × List DupMember)) :
    findGroup t (addToGroups sig m acc) = findGroup t acc := by
  induction acc with
  | nil =>
    have h' : ¬ sig = t := fun hh => hne hh.symm
    simp [addToGroups, findGroup, h']
  | cons g rest ih =>
    obtain ⟨s, ms⟩ := g
    by_cases h : s = sig
    · subst h
      have h' : ¬ s = t := fun hh => hne hh.symm
      simp [addToGroups, findGroup, h']
    · by_cases h2 : s = t
      · have ht : ¬ t = sig := h2 ▸ h
        simp [addToGroups, findGroup, h, h2, ht]
      · simp [addToGroups, findGroup, h, h2, ih]

theorem findGroup_foldl (es : List (String × DupMember)) :
    ∀ (acc : List (String × List DupMember)) (s : String),
      findGroup s (es.foldl (fun a e => addToGroups e.1 e.2 a) acc)
        = findGroup s acc ++ (es.filter (fun e => e.1 == s)).map Prod.snd := by
  induction es with
  | nil => intro acc s; simp
  | cons e rest ih =>
    intro acc s
    rw [List.foldl_cons, ih]
    by_cases h : e.1 = s
    · subst h
      rw [List.filter_cons]
      simp [findGroup_addToGroups_self]
    · rw [findGroup_addToGroups_ne e.1 s e.2 (fun hh => h hh.symm)]
      rw [List.filter_cons]
      have hb : (e.1 == s) = false := by
        simp only [beq_eq_false_iff_ne, ne_eq]
        exact h
      simp [hb]

theorem keysOf_foldl (es : List (String × DupMember)) :
    ∀ acc, keysOf (es.foldl (fun a e => addToGroups e.1 e.2 a) acc)
      = keysOf acc ++ firstSeen ((es.map Prod.fst).filter (fun s => !keyMem s (keysOf acc))) := by
  induction es with
  | nil => intro acc; simp [firstSeen]
  | cons e rest ih =>
    intro acc
    rw [List.foldl_cons, ih, keysOf_addToGroups]
    by_cases h : keyMem e.1 (keysOf acc) = true
    · rw [if_pos h, List.map_cons, List.filter_cons]
      simp [h]
    · rw [if_neg h, List.map_cons, List.filter_cons]
      have hf : keyMem e.1 (keysOf acc) = false := by
        simpa using h
      rw [hf]
      simp only [Bool.not_false, if_true]
      rw [firstSeen, filterTwice]
      have hpred : (fun t => !keyMem t (keysOf acc ++ [e.1]))
          = (fun t => !keyMem t (keysOf acc) && !(t == e.1)) := by
        funext t
        rw [keyMem_append]
        simp [keyMem, Bool.not_or]
      rw [hpred]
      simp [List.append_assoc]

theorem mem_firstSeen (l : List String) : ∀ s, s ∈ firstSeen l → s ∈ l := by
  induction l using firstSeen.induct with
  | case1 =>
    intro s h
    simp [firstSeen] at h
  | case2 x rest ih =>
    intro s h
    rw [firstSeen] at h
    rcases List.mem_cons.1 h with h | h
    · exact h ▸ List.mem_cons_self _ _
    · exact List.mem_cons_of_mem _ (List.mem_filter.1 (ih s h)).1

theorem firstSeen_nodup (l : List String) : (firstSeen l).Nodup := by
  induction l using firstSeen.induct with
  | case1 => simp [firstSeen]
  | case2 x rest ih =>
    rw [firstSeen]
    refine List.nodup_cons.2 ⟨?_, ih⟩
    intro hmem
    have hx := (List.mem_filter.1 (mem_firstSeen _ _ hmem)).2
    simp at hx

theorem mem_keysOf (gs : List (String × List DupMember)) (s : String) (ms : List DupMember)
    (hm : (s, ms) ∈ gs) : s ∈ keysOf gs := by
  induction gs with
  | nil => cases hm
  | cons g rest ih =>
    rcases List.mem_cons.1 hm with he | hm'
    · rw [keysOf, ← he]
      exact List.mem_cons_self _ _
    · exact List.mem_cons_of_mem _ (ih hm')

theorem findGroup_of_mem (gs : List (String × List DupMember)) (hnd : (keysOf gs).Nodup)
    (s : String) (ms : List DupMember) (hm : (s, ms) ∈ gs) : findGroup s gs = ms := by
  induction gs with
  | nil => cases hm
  | cons g rest ih =>
    obtain ⟨k, vs⟩ := g
    rcases List.mem_cons.1 hm with he | hm'
    · cases he
      simp [findGroup]
    · have hk : ¬ k = s := by
        intro hks
        subst hks
        exact (List.nodup_cons.1 hnd).1 (mem_keysOf rest k ms hm')
      simp only [findGroup, if_neg hk]
      exact ih (List.nodup_cons.1 hnd).2 hm'

theorem buildGroups_keys (es : List (String × DupMember)) :
    keysOf (buildGroups es) = firstSeen (es.map Prod.fst) := by
  rw [buildGroups, keysOf_foldl]
  have hpred : (fun s => !keyMem s (keysOf ([] : List (String × List DupMember))))
      = fun _ : String => true := by
    funext t
    simp [keysOf, keyMem]
  rw [hpred]
  simp [keysOf]

theorem buildGroups_keys_nodup (es : List (String × DupMember)) :
    (keysOf (buildGroups es)).Nodup := by
  rw [buildGroups_keys]
  exact firstSeen_nodup _

theorem buildGroups_mem_eq (es : List (String × DupMember)) (s : String) (ms : List DupMember)
    (hm : (s, ms) ∈ buildGroups es) :
    ms = (es.filter (fun e => e.1 == s)).map Prod.snd := by
  have h1 := findGroup_of_mem _ (buildGroups_keys_nodup es) s ms hm
  have h2 := findGroup_foldl es [] s
  rw [buildGroups] at h1
  rw [h1] at h2
  simpa [findGroup] using h2

theorem mapSig_filterMap (gs : List (String × List DupMember)) :
    ((gs.filterMap fun g => if 1 < g.2.length
        then some ({ signature := g.1, rules := g.2, count := g.2.length } : DuplicateGroup)
        else none).map DuplicateGroup.signature)
      = (gs.filter (fun g => decide (1 < g.2.length))).map Prod.fst := by
  induction gs with
  | nil => rfl
  | cons g rest ih =>
    by_cases h : 1 < g.2.length
    · simp [List.filterMap_cons, List.filter_cons, h, ih]
    · simp [List.filterMap_cons, List.filter_cons, h, ih]

theorem filterMapFst (gs : List (String × List DupMember))
    (P : String × List DupMember → Bool) (Q : String → Bool)
    (h : ∀ g ∈ gs, P g = Q g.1) :
    (gs.filter P).map Prod.fst = (keysOf gs).filter Q := by
  induction gs with
  | nil => rfl
  | cons g rest ih =>
    have hg := h g (List.mem_cons_self _ _)
    have hr : ∀ g' ∈ rest, P g' = Q g'.1 := fun g' hg' => h g' (List.mem_cons_of_mem _ hg')
    by_cases hp : P g = true
    · rw [List.filter_cons_of_pos hp, List.map_cons, keysOf,
        List.filter_cons_of_pos (hg ▸ hp), ih hr]
    · have hp' : P g = false := by simpa using hp
      rw [List.filter_cons_of_neg hp, keysOf,
        List.filter_cons_of_neg (by rw [← hg]; simpa using hp), ih hr]

/-- C6: the duplicate detector groups exactly the ACCEPT records by equality of
the `source|destination|service|interface pair|ACTION` signature; every emitted
group carries its member count, has at least two members — all of which are
ACCEPT records bearing the group's signature, listed in input order — and groups
are emitted in the order their signature is first encountered. -/
theorem c6_duplicate_groups (policies : List Policy) :
    (∀ g ∈ auditDuplicateRules policies,
      g.count = g.rules.length ∧ 2 ≤ g.rules.length
        ∧ g.rules = ((dupEntries policies).filter (fun e => e.1 == g.signature)).map Prod.snd
        ∧ ∀ m ∈ g.rules, ∃ j p, policies[j]? = some p ∧ actionUpper p = "ACCEPT"
            ∧ g.signature = signatureOf p ∧ m = dupMemberOf j p)
    ∧ (auditDuplicateRules policies).map DuplicateGroup.signature
      = (firstSeen ((dupEntries policies).map Prod.fst)).filter
          (fun s => decide (1 < ((dupEntries policies).filter (fun e => e.1 == s)).length)) := by
  constructor
  · intro g hg
    rw [auditDuplicateRules] at hg
    rcases List.mem_filterMap.1 hg with ⟨pr, hpr, hemit⟩
    by_cases hlen : 1 < pr.2.length
    case neg =>
      rw [if_neg hlen] at hemit
      exact Option.noConfusion hemit
    rw [if_pos hlen] at hemit
    injection hemit with hemit
    subst hemit
    have hchr : pr.2 = ((dupEntries policies).filter (fun e => e.1 == pr.1)).map Prod.snd := by
      obtain ⟨s, ms⟩ := pr
      exact buildGroups_mem_eq _ s ms hpr
    refine ⟨rfl, hlen, hchr, ?_⟩
    intro m hm
    rw [hchr] at hm
    rcases List.mem_map.1 hm with ⟨e, he, hesnd⟩
    have hee := List.mem_filter.1 he
    have hsig : e.1 = pr.1 := by simpa using hee.2
    rcases (collectAux_mem dupStep policies 0 e).1 hee.1 with ⟨j, p, hj, hstep⟩
    rw [dupStep] at hstep
    by_cases ha : actionUpper p = "ACCEPT"
    case neg =>
      rw [if_neg ha] at hstep
      exact Option.noConfusion hstep
    rw [if_pos ha] at hstep
    injection hstep with hstep
    refine ⟨j, p, hj, ha, ?_, ?_⟩
    · rw [← hsig, ← hstep]
    · rw [← hesnd, ← hstep]
      simp [Nat.zero_add]
  · rw [auditDuplicateRules, mapSig_filterMap,
      filterMapFst _ _
        (fun s => decide (1 < ((dupEntries policies).filter (fun e => e.1 == s)).length)) ?hpt,
      buildGroups_keys]
    case hpt =>
      intro g hg
      obtain ⟨s, ms⟩ := g
      have hms := buildGroups_mem_eq (dupEntries policies) s ms hg
      simp only []
      rw [hms, List.length_map]

/-- Witness for C6 at a concrete two-record duplicate input. -/
theorem c6_duplicate_groups_witness :
    dupGroupW.count = dupGroupW.rules.length ∧ 2 ≤ dupGroupW.rules.length
      ∧ dupGroupW.rules
        = ((dupEntries [pcDupA, pcDupB]).filter (fun e => e.1 == dupGroupW.signature)).map Prod.snd
      ∧ ∀ m ∈ dupGroupW.rules, ∃ j p, [pcDupA, pcDupB][j]? = some p
          ∧ actionUpper p = "ACCEPT" ∧ dupGroupW.signature = signatureOf p
          ∧ m = dupMemberOf j p :=
  (c6_duplicate_groups [pcDupA, pcDupB]).1 dupGroupW (by decide)
